import Mathlib

/-!
Verification of the text-analysis server of the `ai-file-analyzer-final`
repository (`src/server.js`).

The JavaScript functions are embedded shallowly: strings are `String`/`List Char`,
the regular-expression searches of the source are translated to explicit scanning
functions whose behaviour matches the JavaScript regex semantics on the scanned
text, database rows are lists of records, and the outcome of external
collaborators (file decoders, the SQL engine, the clock) is passed in as data.
JavaScript string indices are UTF-16 code units; every character manipulated by
the embedded functions lies in the Basic Multilingual Plane, where code units and
code points agree, so `Char`-based lengths coincide with JavaScript `length`.
-/

namespace AIFA

/-! ## Character-level utilities shared by the embedded functions -/

/-- The characters matched by the JavaScript regular-expression class `\s`
and removed by `String.prototype.trim`. -/
def jsWs (c : Char) : Bool :=
  c == ' ' || c == '\t' || c == '\n' || c == '\u000b' || c == '\u000c' || c == '\r' ||
  c == '\u00a0' || c == '\u1680' || (decide ('\u2000' ≤ c) && decide (c ≤ '\u200a')) ||
  c == '\u2028' || c == '\u2029' || c == '\u202f' || c == '\u205f' || c == '\u3000' ||
  c == '\ufeff'

/-- JavaScript `String.prototype.trim`: drop leading and trailing whitespace. -/
def trimChars (l : List Char) : List Char :=
  ((l.dropWhile jsWs).reverse.dropWhile jsWs).reverse

/-- The three CJK sentence terminators `。！？` used by the concept/card regexes. -/
def cjkTerm (c : Char) : Bool := c == '。' || c == '！' || c == '？'

/-- Accumulator pass behind `sentencePairs`. -/
def sentencePairsAux : List Char → List Char → List (List Char × Char)
  | [], _ => []
  | c :: rest, acc =>
    if cjkTerm c then (acc.reverse, c) :: sentencePairsAux rest []
    else if c == '\n' then sentencePairsAux rest []
    else sentencePairsAux rest (c :: acc)

/-- The list of complete sentences of a text, as seen by the source regexes of
the shape `[^。！？\n]*…[^。！？\n]*[。！？]` with the `g` flag: each match is a
maximal run free of `。！？` and `\n` followed by the terminator that ends it
(a newline discards the unfinished run, and text after the last terminator is
dropped).  Each pair is (sentence body, its terminator). -/
def sentencePairs (l : List Char) : List (List Char × Char) := sentencePairsAux l []

/-- Whether a list of characters starts with the two characters `##`. -/
def startsHashHash (l : List Char) : Bool :=
  match l with
  | a :: b :: _ => a == '#' && b == '#'
  | _ => false

/-- One attempt of the header pattern `##\s*<header>` at the head of `s`
(the `\s*` is greedy, and since no header starts with whitespace the greedy
match is the only one).  On success returns the matched prefix and the
remaining characters after the header word. -/
def headerMatchAt (header s : List Char) : Option (List Char × List Char) :=
  if startsHashHash s then
    let rest := s.drop 2
    let w := rest.takeWhile jsWs
    let r := rest.dropWhile jsWs
    if header.isPrefixOf r then some ('#' :: '#' :: (w ++ header), r.drop header.length)
    else none
  else none

/-- The characters a lazy `[\s\S]*?(?=##|$)` consumes: everything up to (not
including) the next occurrence of `##`, or the whole remainder. -/
def sectionTail (l : List Char) : List Char :=
  match l with
  | [] => []
  | c :: rest => if startsHashHash (c :: rest) then [] else c :: sectionTail rest

/-- The remainder of the text from the next occurrence of `##` on (the `(?=##|$)`
lookahead does not consume it, so a global replace resumes scanning there). -/
def afterSectionStart (l : List Char) : List Char :=
  match l with
  | [] => []
  | c :: rest => if startsHashHash (c :: rest) then c :: rest else afterSectionStart rest

/-- First match of `##\s*<header>[\s\S]*?(?=##|$)` in `s`, returned whole
(header included) — used by the Card Builder, which keeps `match[0]`. -/
def findSectionFull (header : List Char) : List Char → Option (List Char)
  | [] => none
  | s@(_ :: rest) =>
    match headerMatchAt header s with
    | some (pre, after) => some (pre ++ sectionTail after)
    | none => findSectionFull header rest

/-- The Concept Extractor's section content: the first match of
`##\s*<header>[\s\S]*?(?=##|$)` with the leading `##\s*<header>` removed
(the source strips it with a `replace`) and the result trimmed.  `[]` when the
header does not occur. -/
def sectionContent (header : List Char) : List Char → List Char
  | [] => []
  | s@(_ :: rest) =>
    match headerMatchAt header s with
    | some (_, after) => trimChars (sectionTail after)
    | none => sectionContent header rest

theorem length_dropWhile_le (p : Char → Bool) (l : List Char) :
    (l.dropWhile p).length ≤ l.length := by
  induction l with
  | nil => simp [List.dropWhile]
  | cons a t ih =>
    simp only [List.dropWhile]
    split
    · exact Nat.le_succ_of_le ih
    · simp

theorem startsHashHash_two_le {s : List Char} (h : startsHashHash s = true) :
    2 ≤ s.length := by
  match s with
  | [] => simp [startsHashHash] at h
  | [a] => simp [startsHashHash] at h
  | a :: b :: t => simp

theorem headerMatchAt_length {header s : List Char} {pre after : List Char}
    (h : headerMatchAt header s = some (pre, after)) : after.length + 2 ≤ s.length := by
  unfold headerMatchAt at h
  by_cases hs : startsHashHash s = true
  · rw [if_pos hs] at h
    by_cases hp : header.isPrefixOf (List.dropWhile jsWs (s.drop 2)) = true
    · rw [if_pos hp] at h
      have hafter : after = (List.dropWhile jsWs (s.drop 2)).drop header.length := by
        have := (Option.some.injEq _ _).mp h
        exact (Prod.mk.injEq _ _ _ _).mp this |>.2.symm
      have h1 : after.length ≤ (List.dropWhile jsWs (s.drop 2)).length := by
        rw [hafter]; simp [List.length_drop]
      have h2 : (List.dropWhile jsWs (s.drop 2)).length ≤ (s.drop 2).length :=
        length_dropWhile_le _ _
      have h3 : (s.drop 2).length = s.length - 2 := by simp [List.length_drop]
      have h4 := startsHashHash_two_le hs
      omega
    · rw [if_neg hp] at h; exact absurd h (by simp)
  · rw [if_neg hs] at h; exact absurd h (by simp)

theorem afterSectionStart_length_le (l : List Char) :
    (afterSectionStart l).length ≤ l.length := by
  induction l with
  | nil => simp [afterSectionStart]
  | cons c rest ih =>
    simp only [afterSectionStart]
    split
    · simp
    · exact Nat.le_succ_of_le ih

/-- Structural worker for `removeSections`.  The fuel only serves to make the
recursion structural: every step strictly shortens the scanned list (a header
match consumes at least the two `#` and the header word), so fuel equal to the
list length is never exhausted. -/
def removeSectionsAux (header : List Char) : Nat → List Char → List Char
  | 0, _ => []
  | _ + 1, [] => []
  | fuel + 1, c :: rest =>
    match headerMatchAt header (c :: rest) with
    | some (_, after) => removeSectionsAux header fuel (afterSectionStart after)
    | none => c :: removeSectionsAux header fuel rest

/-- A global replace of `##\s*<header>[\s\S]*?(?=##|$)` by the empty string:
matches are removed left to right, and scanning resumes at the `##` that ended
the previous match (the lookahead does not consume it). -/
def removeSections (header l : List Char) : List Char :=
  removeSectionsAux header l.length l

/-! ## Concept Extractor (`extractConceptsFromAnalysis`, src/server.js 463–553) -/

/-- A concept record `{concept, importance, source}` as built by the server. -/
structure Concept where
  concept : String
  importance : String
  source : String
deriving DecidableEq, Repr

/-- The characters of the source's indicator class
`[介紹|討論|分析|探討|提到|說明|建議|方法|策略|原則|特點|優勢|重要|關鍵|核心|主要]`:
a regex character class lists single characters, so this is every listed Han
character (duplicates dropped) plus the literal `|` separators. -/
def indicatorChars : List Char :=
  ['介', '紹', '討', '論', '分', '析', '探', '提', '到', '說', '明', '建', '議',
   '方', '法', '策', '略', '原', '則', '特', '點', '優', '勢', '重', '要', '關',
   '鍵', '核', '心', '主', '|']

/-- Header word of the `## 智能摘要` (smart summary) section. -/
def smartSummaryHeader : List Char := "智能摘要".toList

/-- Header word of the `## 核心關鍵詞` (core keywords) section. -/
def coreKeywordsHeader : List Char := "核心關鍵詞".toList

/-- The keyword stop list excluded when harvesting the keywords section. -/
def conceptStopWords : List String :=
  ["文件", "處理", "系統", "分析", "內容", "數據", "信息", "結果"]

/-- Source `sentence.replace(/[。！？\-\*]/g, '').trim()`. -/
def cleanSummarySentence (l : List Char) : List Char :=
  trimChars (l.filter (fun c => !(c == '。' || c == '！' || c == '？' || c == '-' || c == '*')))

/-- Source `sentence.replace(/[。！？\-\*#]/g, '').trim()` (the generic branch also drops `#`). -/
def cleanGenericSentence (l : List Char) : List Char :=
  trimChars
    (l.filter (fun c => !(c == '。' || c == '！' || c == '？' || c == '-' || c == '*' || c == '#')))

/-- Concepts taken from the smart-summary section: the first 3 sentences that
contain an indicator character, cleaned, kept when the cleaned length is
strictly between 8 and 60. -/
def smartSummaryConcepts (s : List Char) : List Concept :=
  let content := sectionContent smartSummaryHeader s
  if content.isEmpty then []
  else
    (((sentencePairs content).filter
        (fun p => p.1.any (fun c => indicatorChars.contains c))).take 3).filterMap
      (fun p =>
        if 8 < (cleanSummarySentence (p.1 ++ [p.2])).length &&
            (cleanSummarySentence (p.1 ++ [p.2])).length < 60 then
          some ⟨String.mk (cleanSummarySentence (p.1 ++ [p.2])), "high", "smart_summary"⟩
        else none)

/-- A character of the class `[一-龥A-Za-z]`. -/
def keywordChar (c : Char) : Bool :=
  (decide ('一' ≤ c) && decide (c ≤ '龥')) ||
  (decide ('A' ≤ c) && decide (c ≤ 'Z')) ||
  (decide ('a' ≤ c) && decide (c ≤ 'z'))

/-- Structural worker for `chunkKeywordRun`; each step drops 15 characters from
a list of length at least 2, so fuel equal to the list length never runs out. -/
def chunkKeywordRunAux : Nat → List Char → List (List Char)
  | 0, _ => []
  | fuel + 1, l => if 2 ≤ l.length then l.take 15 :: chunkKeywordRunAux fuel (l.drop 15) else []

/-- The `{2,15}` quantifier applied greedily and globally inside one maximal run
of keyword characters: successive non-overlapping chunks of up to 15
characters; a leftover single character cannot satisfy the minimum of 2. -/
def chunkKeywordRun (l : List Char) : List (List Char) :=
  chunkKeywordRunAux l.length l

/-- Structural worker for `keywordRuns`; each step strictly shortens the list,
so fuel equal to the list length never runs out. -/
def keywordRunsAux : Nat → List Char → List (List Char)
  | 0, _ => []
  | _ + 1, [] => []
  | fuel + 1, c :: rest =>
    if keywordChar c then
      chunkKeywordRun (c :: rest.takeWhile keywordChar) ++
        keywordRunsAux fuel (rest.dropWhile keywordChar)
    else keywordRunsAux fuel rest

/-- All matches of `/[一-龥A-Za-z]{2,15}/g` in order. -/
def keywordRuns (l : List Char) : List (List Char) :=
  keywordRunsAux l.length l

/-- Concepts taken from the core-keywords section: the first 4 keyword runs,
minus stop words. -/
def keywordConcepts (s : List Char) : List Concept :=
  let content := sectionContent coreKeywordsHeader s
  if content.isEmpty then []
  else
    ((keywordRuns content).take 4).filterMap (fun w =>
      if conceptStopWords.contains (String.mk w) then none
      else some ⟨String.mk w, "medium", "keywords"⟩)

/-- All matches of `/[^。！？\n]{10,50}[。！？]/g`: for a sentence body of length
10–50 the whole body plus terminator; for a longer body only its final 50
characters match (the greedy bounded repeat backtracks past the start); shorter
bodies yield nothing. -/
def genericSentenceMatches (l : List Char) : List (List Char) :=
  (sentencePairs l).filterMap (fun p =>
    if 10 ≤ p.1.length && p.1.length ≤ 50 then some (p.1 ++ [p.2])
    else if 50 < p.1.length then some (p.1.drop (p.1.length - 50) ++ [p.2])
    else none)

/-- The summary with the `處理文件`, `文件統計` and `處理結果` sections removed,
in the source's replace order. -/
def filteredAnalysisText (s : List Char) : List Char :=
  removeSections "處理結果".toList
    (removeSections "文件統計".toList (removeSections "處理文件".toList s))

/-- Fallback extraction over the whole (filtered) summary when neither section
produced a concept: the first 3 generic sentence matches, cleaned, kept when
longer than 8 characters. -/
def filteredAnalysisConcepts (s : List Char) : List Concept :=
  ((genericSentenceMatches (filteredAnalysisText s)).take 3).filterMap (fun m =>
    if 8 < (cleanGenericSentence m).length then
      some ⟨String.mk (cleanGenericSentence m), "medium", "filtered_analysis"⟩
    else none)

/-- The three fixed fallback concepts, in source order. -/
def fallbackConcepts : List Concept :=
  [⟨"文檔核心內容分析", "high", "fallback"⟩,
   ⟨"重要信息提取", "medium", "fallback"⟩,
   ⟨"知識要點整理", "medium", "fallback"⟩]

/-- The function `extractConceptsFromAnalysis(analysisText, contentText)`: smart-summary
concepts, then keyword concepts; if none, generic concepts from the filtered
summary; if still none, the fixed fallback list; finally truncated to 5.
(`contentText` is accepted but never used by the source.) -/
def extractConceptsFromAnalysis (analysisText contentText : String) : List Concept :=
  let s := analysisText.toList
  let base := smartSummaryConcepts s ++ keywordConcepts s
  let concepts := if base.isEmpty then filteredAnalysisConcepts s else base
  if concepts.isEmpty then fallbackConcepts else concepts.take 5

/-! ## Field invariants of the three concept producers -/

theorem mem_smartSummaryConcepts {s : List Char} {x : Concept}
    (hx : x ∈ smartSummaryConcepts s) : x.importance = "high" ∧ x.source = "smart_summary" := by
  simp only [smartSummaryConcepts] at hx
  split at hx
  · simp at hx
  · rw [List.mem_filterMap] at hx
    obtain ⟨p, _, hpx⟩ := hx
    split at hpx
    · cases hpx
      exact ⟨rfl, rfl⟩
    · exact absurd hpx (by simp)

theorem mem_keywordConcepts {s : List Char} {x : Concept}
    (hx : x ∈ keywordConcepts s) : x.importance = "medium" ∧ x.source = "keywords" := by
  simp only [keywordConcepts] at hx
  split at hx
  · simp at hx
  · rw [List.mem_filterMap] at hx
    obtain ⟨w, _, hwx⟩ := hx
    split at hwx
    · exact absurd hwx (by simp)
    · cases hwx
      exact ⟨rfl, rfl⟩

theorem mem_filteredAnalysisConcepts {s : List Char} {x : Concept}
    (hx : x ∈ filteredAnalysisConcepts s) :
    x.importance = "medium" ∧ x.source = "filtered_analysis" := by
  simp only [filteredAnalysisConcepts] at hx
  rw [List.mem_filterMap] at hx
  obtain ⟨m, _, hmx⟩ := hx
  split at hmx
  · cases hmx
    exact ⟨rfl, rfl⟩
  · exact absurd hmx (by simp)

theorem mem_fallbackConcepts {x : Concept} (hx : x ∈ fallbackConcepts) :
    x.source = "fallback" := by
  have : x = (⟨"文檔核心內容分析", "high", "fallback"⟩ : Concept) ∨
      x = (⟨"重要信息提取", "medium", "fallback"⟩ : Concept) ∨
      x = (⟨"知識要點整理", "medium", "fallback"⟩ : Concept) := by
    simpa [fallbackConcepts] using hx
  rcases this with rfl | rfl | rfl <;> rfl

/-- Unfolding equation for `extractConceptsFromAnalysis` (the `let`s of the
definition zeta-reduce away). -/
theorem extractConcepts_def (analysisText contentText : String) :
    extractConceptsFromAnalysis analysisText contentText =
      if (if (smartSummaryConcepts analysisText.toList ++
              keywordConcepts analysisText.toList).isEmpty = true then
            filteredAnalysisConcepts analysisText.toList
          else smartSummaryConcepts analysisText.toList ++
            keywordConcepts analysisText.toList).isEmpty = true then
        fallbackConcepts
      else
        (if (smartSummaryConcepts analysisText.toList ++
              keywordConcepts analysisText.toList).isEmpty = true then
            filteredAnalysisConcepts analysisText.toList
          else smartSummaryConcepts analysisText.toList ++
            keywordConcepts analysisText.toList).take 5 := rfl

/-- C1: for every summary text (with any content text) `extractConceptsFromAnalysis`
returns between 1 and 5 concept records, and whenever the summary yields no
section-based concept and no qualifying generic sentence (in particular for the
empty summary) it returns exactly the 3 fixed fallback concepts in their fixed
order. -/
theorem extractConcepts_count_bounds_and_fallback (analysisText contentText : String) :
    (1 ≤ (extractConceptsFromAnalysis analysisText contentText).length ∧
      (extractConceptsFromAnalysis analysisText contentText).length ≤ 5) ∧
    (smartSummaryConcepts analysisText.toList = [] ∧
        keywordConcepts analysisText.toList = [] ∧
        filteredAnalysisConcepts analysisText.toList = [] →
      extractConceptsFromAnalysis analysisText contentText = fallbackConcepts) := by
  constructor
  · rw [extractConcepts_def]
    generalize (if (smartSummaryConcepts analysisText.toList ++
        keywordConcepts analysisText.toList).isEmpty = true then
          filteredAnalysisConcepts analysisText.toList
        else smartSummaryConcepts analysisText.toList ++
          keywordConcepts analysisText.toList) = C
    split
    · exact ⟨by decide, by decide⟩
    · rename_i hne
      have hpos : 0 < C.length := by
        rcases Nat.eq_zero_or_pos C.length with h | h
        · exact absurd (List.isEmpty_iff.mpr (List.length_eq_zero.mp h)) hne
        · exact h
      rw [List.length_take]
      omega
  · intro ⟨h1, h2, h3⟩
    rw [extractConcepts_def, h1, h2, h3]
    simp

/-- C1 witness: the empty summary produces exactly the fallback concepts. -/
theorem extractConcepts_fallback_instance :
    extractConceptsFromAnalysis "" "unused content" = fallbackConcepts :=
  (extractConcepts_count_bounds_and_fallback "" "unused content").2 ⟨rfl, rfl, rfl⟩

/-- Case analysis of `extractConceptsFromAnalysis`: either the section-based
concepts are non-empty and are returned (truncated to 5), or the generic
concepts are, or the fixed fallback list is returned. -/
theorem extractConcepts_cases (analysisText contentText : String) :
    (smartSummaryConcepts analysisText.toList ++ keywordConcepts analysisText.toList ≠ [] ∧
      extractConceptsFromAnalysis analysisText contentText =
        (smartSummaryConcepts analysisText.toList ++
          keywordConcepts analysisText.toList).take 5) ∨
    (smartSummaryConcepts analysisText.toList ++ keywordConcepts analysisText.toList = [] ∧
      filteredAnalysisConcepts analysisText.toList ≠ [] ∧
      extractConceptsFromAnalysis analysisText contentText =
        (filteredAnalysisConcepts analysisText.toList).take 5) ∨
    (smartSummaryConcepts analysisText.toList ++ keywordConcepts analysisText.toList = [] ∧
      filteredAnalysisConcepts analysisText.toList = [] ∧
      extractConceptsFromAnalysis analysisText contentText = fallbackConcepts) := by
  by_cases hb : (smartSummaryConcepts analysisText.toList ++
      keywordConcepts analysisText.toList).isEmpty = true
  · by_cases hf : (filteredAnalysisConcepts analysisText.toList).isEmpty = true
    · exact Or.inr (Or.inr ⟨List.isEmpty_iff.mp hb, List.isEmpty_iff.mp hf, by
        rw [extractConcepts_def, if_pos hb, if_pos hf]⟩)
    · exact Or.inr (Or.inl ⟨List.isEmpty_iff.mp hb, fun h => hf (List.isEmpty_iff.mpr h), by
        rw [extractConcepts_def, if_pos hb, if_neg hf]⟩)
  · exact Or.inl ⟨fun h => hb (List.isEmpty_iff.mpr h), by
      rw [extractConcepts_def, if_neg hb, if_neg hb]⟩

theorem getD_take_five {l : List Concept} {i : Nat} {d : Concept} (h : i < 5) :
    (l.take 5).getD i d = l.getD i d := by
  by_cases hl : i < l.length
  · have h1 : i < (l.take 5).length := by rw [List.length_take]; omega
    rw [List.getD_eq_getElem _ _ h1, List.getD_eq_getElem _ _ hl, List.getElem_take]
  · have h2 : (l.take 5).length ≤ i := by rw [List.length_take]; omega
    rw [List.getD_eq_default _ _ h2, List.getD_eq_default _ _ (Nat.le_of_not_lt hl)]

theorem source_getD_append_left {A B : List Concept} {i : Nat} {d : Concept}
    (hB : ∀ x ∈ B, x.source = "keywords") (hd : d.source = "")
    (h : ((A ++ B).getD i d).source = "smart_summary") : i < A.length := by
  induction A generalizing i with
  | nil =>
    exfalso
    simp only [List.nil_append] at h
    by_cases hl : i < B.length
    · rw [List.getD_eq_getElem _ _ hl] at h
      rw [hB _ (List.getElem_mem hl)] at h
      exact absurd h (by decide)
    · rw [List.getD_eq_default _ _ (Nat.le_of_not_lt hl)] at h
      rw [hd] at h
      exact absurd h (by decide)
  | cons a A ih =>
    cases i with
    | zero => simp
    | succ n =>
      have hstep : (((a :: A) ++ B).getD (n + 1) d) = ((A ++ B).getD n d) := by
        simp [List.getD_cons_succ]
      rw [hstep] at h
      have := ih h
      simp only [List.length_cons]
      omega

theorem source_getD_append_right {A B : List Concept} {j : Nat} {d : Concept}
    (hA : ∀ x ∈ A, x.source = "smart_summary")
    (h : ((A ++ B).getD j d).source = "keywords") : A.length ≤ j := by
  induction A generalizing j with
  | nil => simp
  | cons a A ih =>
    cases j with
    | zero =>
      exfalso
      have h0 : (((a :: A) ++ B).getD 0 d) = a := rfl
      rw [h0] at h
      rw [hA a (by simp)] at h
      exact absurd h (by decide)
    | succ n =>
      have hstep : (((a :: A) ++ B).getD (n + 1) d) = ((A ++ B).getD n d) := by
        simp [List.getD_cons_succ]
      rw [hstep] at h
      have := ih (fun x hx => hA x (by simp [hx])) h
      simp only [List.length_cons]
      omega

/-- C9: every returned concept has importance `high` when its source is
`smart_summary` and `medium` when its source is `keywords` or
`filtered_analysis`, and every `smart_summary` concept is positioned before
every `keywords` concept. -/
theorem extractConcepts_source_importance_order (analysisText contentText : String) :
    (∀ x ∈ extractConceptsFromAnalysis analysisText contentText,
        (x.source = "smart_summary" → x.importance = "high") ∧
        (x.source = "keywords" ∨ x.source = "filtered_analysis" → x.importance = "medium")) ∧
    (∀ i j : Nat,
        ((extractConceptsFromAnalysis analysisText contentText).getD i ⟨"", "", ""⟩).source =
            "smart_summary" →
        ((extractConceptsFromAnalysis analysisText contentText).getD j ⟨"", "", ""⟩).source =
            "keywords" →
        i < j) := by
  constructor
  · intro x hx
    rcases extractConcepts_cases analysisText contentText with ⟨hb, hL⟩ | ⟨hb, hf, hL⟩ |
      ⟨hb, hf, hL⟩ <;> rw [hL] at hx
    · rcases List.mem_append.mp (List.mem_of_mem_take hx) with h | h
      · have hsm := mem_smartSummaryConcepts h
        refine ⟨fun _ => hsm.1, fun hor => ?_⟩
        rcases hor with hk | hf2
        · rw [hsm.2] at hk; exact absurd hk (by decide)
        · rw [hsm.2] at hf2; exact absurd hf2 (by decide)
      · have hkw := mem_keywordConcepts h
        exact ⟨fun hs => by rw [hkw.2] at hs; exact absurd hs (by decide),
          fun _ => hkw.1⟩
    · have hfa := mem_filteredAnalysisConcepts (List.mem_of_mem_take hx)
      constructor
      · intro h; rw [hfa.2] at h; exact absurd h (by decide)
      · intro _; exact hfa.1
    · have hsrc := mem_fallbackConcepts hx
      constructor
      · intro h; rw [h] at hsrc; exact absurd hsrc (by decide)
      · intro h
        rcases h with h | h <;> (rw [h] at hsrc; exact absurd hsrc (by decide))
  · intro i j hi hj
    rcases extractConcepts_cases analysisText contentText with ⟨hb, hL⟩ | ⟨hb, hf, hL⟩ |
      ⟨hb, hf, hL⟩
    · rw [hL] at hi hj
      have hi5 : i < 5 := by
        by_contra h5
        rw [List.getD_eq_default _ _ (by rw [List.length_take]; omega)] at hi
        exact absurd hi (by decide)
      have hj5 : j < 5 := by
        by_contra h5
        rw [List.getD_eq_default _ _ (by rw [List.length_take]; omega)] at hj
        exact absurd hj (by decide)
      rw [getD_take_five hi5] at hi
      rw [getD_take_five hj5] at hj
      have hiA := source_getD_append_left
        (fun x hx => (mem_keywordConcepts hx).2) rfl hi
      have hjA := source_getD_append_right
        (fun x hx => (mem_smartSummaryConcepts hx).2) hj
      omega
    · exfalso
      rw [hL] at hj
      by_cases hjl : j < ((filteredAnalysisConcepts analysisText.toList).take 5).length
      · rw [List.getD_eq_getElem _ _ hjl] at hj
        have := mem_filteredAnalysisConcepts (List.mem_of_mem_take (List.getElem_mem hjl))
        rw [this.2] at hj
        exact absurd hj (by decide)
      · rw [List.getD_eq_default _ _ (Nat.le_of_not_lt hjl)] at hj
        exact absurd hj (by decide)
    · exfalso
      rw [hL] at hj
      by_cases hjl : j < fallbackConcepts.length
      · rw [List.getD_eq_getElem _ _ hjl] at hj
        have := mem_fallbackConcepts (List.getElem_mem hjl)
        rw [this] at hj
        exact absurd hj (by decide)
      · rw [List.getD_eq_default _ _ (Nat.le_of_not_lt hjl)] at hj
        exact absurd hj (by decide)

/-- C9 witness: on a summary with both sections, the first returned concept is
a high-importance smart-summary concept and it precedes the keyword concepts. -/
theorem extractConcepts_order_instance :
    ((extractConceptsFromAnalysis
        "## 智能摘要\n本文分析了學習方法的核心策略與重要原則。\n## 核心關鍵詞\n學習 方法 策略 知識\n"
        "").getD 0 ⟨"", "", ""⟩).importance = "high" ∧ (0 : Nat) < 1 :=
  ⟨((extractConcepts_source_importance_order
        "## 智能摘要\n本文分析了學習方法的核心策略與重要原則。\n## 核心關鍵詞\n學習 方法 策略 知識\n"
        "").1 _ (by decide)).1 (by decide),
   (extractConcepts_source_importance_order
        "## 智能摘要\n本文分析了學習方法的核心策略與重要原則。\n## 核心關鍵詞\n學習 方法 策略 知識\n"
        "").2 0 1 (by decide) (by decide)⟩

/-! ## Connection Builder
(`POST /card-notes/create-connections` handler, src/server.js 2031–2087) -/

/-- A card `{title, concept, example, application}` as built by the server
(`example` is quoted because it is a Lean keyword). -/
structure Card where
  title : String
  concept : String
  «example» : String
  application : String
deriving DecidableEq, Repr

/-- A connection `{from, to, relationship}` (`from` is quoted because it is a
Lean keyword). -/
structure Connection where
  «from» : String
  «to» : String
  relationship : String
deriving DecidableEq, Repr

/-- The response of the connections endpoint: `{success:true, data}` or the
`{success:false, error}` body of the outer catch. -/
inductive ConnResponse where
  | ok (data : List Connection)
  | err (msg : String)
deriving DecidableEq, Repr

/-- Source `card.title || '未知概念'`: the empty string is falsy, a missing title is
modelled by the empty string. -/
def cardTitleOf (card : Card) : String :=
  if card.title = "" then "未知概念" else card.title

/-- The sequential-connection template string. -/
def seqRelationship (a b : String) : String :=
  a ++ "與" ++ b ++ "在文檔中相互補充，共同構成了完整的知識體系"

/-- The first-to-last connection template string. -/
def headTailRelationship (a b : String) : String :=
  a ++ "是基礎概念，" ++ b ++ "是應用層面的體現"

/-- The local fallback connection list built from the card titles: one
connection per `i < min(n-1, 3)` linking title i to title i+1, plus a
first-to-last connection when there are at least 3 titles. -/
def localConnections (titles : List String) : List Connection :=
  (List.range (min (titles.length - 1) 3)).map (fun i =>
    ⟨titles.getD i "", titles.getD (i + 1) "",
      seqRelationship (titles.getD i "") (titles.getD (i + 1) "")⟩) ++
  (if 3 ≤ titles.length then
    [⟨titles.getD 0 "", titles.getD (titles.length - 1) "",
      headTailRelationship (titles.getD 0 "") (titles.getD (titles.length - 1) "")⟩]
  else [])

/-- The `POST /card-notes/create-connections` handler.  `cardsField` is the
`cards` field of the JSON body (`none` when it is not an array);
`aiConnections` is the connection list recovered from the AI attempt (`[]`
whenever the attempt fails or yields no parsable bracket match, which
selects the local fallback path). -/
def createConnectionsHandler (cardsField : Option (List Card))
    (aiConnections : List Connection) : ConnResponse :=
  match cardsField with
  | none => ConnResponse.ok []
  | some cards =>
    if cards.length < 2 then ConnResponse.ok []
    else
      if aiConnections.isEmpty then ConnResponse.ok (localConnections (cards.map cardTitleOf))
      else ConnResponse.ok aiConnections

theorem localConnections_spec (titles : List String) :
    (localConnections titles).length =
      min (titles.length - 1) 3 + (if 3 ≤ titles.length then 1 else 0) ∧
    (∀ i, i < min (titles.length - 1) 3 →
      ((localConnections titles).getD i ⟨"", "", ""⟩) =
        ⟨titles.getD i "", titles.getD (i + 1) "",
          seqRelationship (titles.getD i "") (titles.getD (i + 1) "")⟩) ∧
    (3 ≤ titles.length →
      ((localConnections titles).getD ((localConnections titles).length - 1) ⟨"", "", ""⟩) =
        ⟨titles.getD 0 "", titles.getD (titles.length - 1) "",
          headTailRelationship (titles.getD 0 "") (titles.getD (titles.length - 1) "")⟩) := by
  refine ⟨?_, ?_, ?_⟩
  · simp only [localConnections, List.length_append, List.length_map, List.length_range]
    split <;> simp
  · intro i hi
    have hlen : i < ((List.range (min (titles.length - 1) 3)).map (fun i =>
        (⟨titles.getD i "", titles.getD (i + 1) "",
          seqRelationship (titles.getD i "") (titles.getD (i + 1) "")⟩ : Connection))).length := by
      simpa using hi
    rw [localConnections, List.getD_append _ _ _ i hlen, List.getD_eq_getElem _ _ hlen,
      List.getElem_map, List.getElem_range]
  · intro h3
    have hsplit : localConnections titles =
        (List.range (min (titles.length - 1) 3)).map (fun i =>
          (⟨titles.getD i "", titles.getD (i + 1) "",
            seqRelationship (titles.getD i "") (titles.getD (i + 1) "")⟩ : Connection)) ++
        [⟨titles.getD 0 "", titles.getD (titles.length - 1) "",
          headTailRelationship (titles.getD 0 "") (titles.getD (titles.length - 1) "")⟩] := by
      rw [localConnections, if_pos h3]
    rw [hsplit, List.getD_append_right _ _ _ _ (by simp)]
    simp

/-- C2: on the local fallback path (no AI-provided connections) the handler
returns 0 connections for 0 or 1 cards; for `n ≥ 2` cards it returns exactly
`min(n-1, 3)` sequential connections, the i-th linking the title of card i to
the title of card i+1 with the templated relationship, plus one additional
first-to-last connection at the end exactly when `n ≥ 3`. -/
theorem createConnections_local_structure (cards : List Card) :
    (cards.length ≤ 1 → createConnectionsHandler (some cards) [] = ConnResponse.ok []) ∧
    (2 ≤ cards.length →
      createConnectionsHandler (some cards) [] =
        ConnResponse.ok (localConnections (cards.map cardTitleOf)) ∧
      (localConnections (cards.map cardTitleOf)).length =
        min (cards.length - 1) 3 + (if 3 ≤ cards.length then 1 else 0) ∧
      (∀ i, i < min (cards.length - 1) 3 →
        ((localConnections (cards.map cardTitleOf)).getD i ⟨"", "", ""⟩) =
          ⟨(cards.map cardTitleOf).getD i "", (cards.map cardTitleOf).getD (i + 1) "",
            seqRelationship ((cards.map cardTitleOf).getD i "")
              ((cards.map cardTitleOf).getD (i + 1) "")⟩) ∧
      (3 ≤ cards.length →
        ((localConnections (cards.map cardTitleOf)).getD
            ((localConnections (cards.map cardTitleOf)).length - 1) ⟨"", "", ""⟩) =
          ⟨(cards.map cardTitleOf).getD 0 "", (cards.map cardTitleOf).getD (cards.length - 1) "",
            headTailRelationship ((cards.map cardTitleOf).getD 0 "")
              ((cards.map cardTitleOf).getD (cards.length - 1) "")⟩)) := by
  have hmap : (cards.map cardTitleOf).length = cards.length := List.length_map _ _
  constructor
  · intro h
    simp [createConnectionsHandler, show cards.length < 2 by omega]
  · intro h2
    have hspec := localConnections_spec (cards.map cardTitleOf)
    refine ⟨?_, ?_, ?_, ?_⟩
    · simp [createConnectionsHandler, show ¬ cards.length < 2 by omega]
    · rw [hspec.1, hmap]
    · intro i hi
      exact hspec.2.1 i (by rw [hmap]; exact hi)
    · intro h3
      have := hspec.2.2 (by rw [hmap]; exact h3)
      rw [this, hmap]

/-- C2 witness: three cards produce the full structure. -/
theorem createConnections_local_structure_instance :
    createConnectionsHandler (some [⟨"甲", "", "", ""⟩, ⟨"乙", "", "", ""⟩, ⟨"丙", "", "", ""⟩]) [] =
      ConnResponse.ok (localConnections
        ([(⟨"甲", "", "", ""⟩ : Card), ⟨"乙", "", "", ""⟩, ⟨"丙", "", "", ""⟩].map cardTitleOf)) :=
  ((createConnections_local_structure [⟨"甲", "", "", ""⟩, ⟨"乙", "", "", ""⟩, ⟨"丙", "", "", ""⟩]).2
    (by decide)).1

/-- C10: a request body whose `cards` field is not an array, or is an array of
fewer than 2 elements, gets the `{success: true, data: []}` response (the `ok`
constructor), never an error-flagged one. -/
theorem createConnections_guard_success_empty :
    (∀ aiConnections, createConnectionsHandler none aiConnections = ConnResponse.ok []) ∧
    (∀ cards aiConnections, cards.length < 2 →
      createConnectionsHandler (some cards) aiConnections = ConnResponse.ok []) := by
  constructor
  · intro ai
    rfl
  · intro cards ai h
    simp [createConnectionsHandler, h]

/-- C10 witness: a single-card body gets `{success: true, data: []}`. -/
theorem createConnections_guard_instance :
    createConnectionsHandler (some [⟨"甲", "b", "c", "d"⟩]) [⟨"x", "y", "z"⟩] =
      ConnResponse.ok [] :=
  createConnections_guard_success_empty.2 [⟨"甲", "b", "c", "d"⟩] [⟨"x", "y", "z"⟩] (by decide)

/-! ## Text Extractor (`extractTextFromFile`, src/server.js 212–285) -/

/-- The outcome of one external decoder call on the uploaded file: the decoded
text, or the error it throws / the promise rejection it produces. -/
inductive DecodeResult where
  | ok (text : String)
  | err (msg : String)
deriving DecidableEq, Repr

/-- The outcomes of the external collaborators for a given stored file,
passed to the embedded dispatcher as data.  `ocrText` is a plain string
because `extractTextFromImage` has its own internal catch and always
resolves with a report text. -/
structure FileEnv where
  readTextFile : DecodeResult
  readBinary : DecodeResult
  pdfParse : DecodeResult
  mammothExtract : DecodeResult
  xlsxText : DecodeResult
  htmlText : DecodeResult
  epubOutcome : DecodeResult
  ocrText : String
deriving DecidableEq, Repr

/-- What the caller of `extractTextFromFile` observes: a resolved text value
(real text or a placeholder), or a rejection that escaped the function. -/
inductive ExtractOutcome where
  | text (s : String)
  | raised (msg : String)
deriving DecidableEq, Repr

/-- Node `path.extname(name)` restricted to upload base names: the suffix from the
last `.` on, or the empty string when there is no `.` or the only `.` is the
leading character of the base name; a directory part before a `/` is ignored. -/
def extname (name : String) : String :=
  let base := name.toList.foldl (fun acc c => if c = '/' then [] else acc ++ [c]) []
  let rev := base.reverse
  let afterDotRev := rev.takeWhile (fun c => !(c == '.'))
  match rev.dropWhile (fun c => !(c == '.')) with
  | [] => ""
  | _ :: restRev => if restRev.isEmpty then "" else String.mk ('.' :: afterDotRev.reverse)

/-- Node `path.extname(originalName).toLowerCase()` (ASCII lowering; extensions are
ASCII). -/
def extOf (originalName : String) : String :=
  String.mk ((extname originalName).toList.map Char.toLower)

/-- The placeholder for a caught decode error, `[文件解析失敗: <name>]`. -/
def parseFailPlaceholder (originalName : String) : String :=
  "[文件解析失敗: " ++ originalName ++ "]"

/-- The placeholder for an unsupported extension, `[不支援的文件格式: <ext>]`. -/
def unsupportedPlaceholder (ext : String) : String :=
  "[不支援的文件格式: " ++ ext ++ "]"

/-- The function `extractTextFromFile(filePath, originalName)`.  Every branch runs inside the
function's try/catch, so a thrown error or an awaited rejection resolves to the
`[文件解析失敗: …]` placeholder — except the `.epub` branch: it returns a new
`Promise` without `await`, so that promise's rejection (the reader's `error`
event) happens after the `try` block was exited and escapes the function
uncaught (`raised`). -/
def extractTextFromFile (env : FileEnv) (filePath originalName : String) : ExtractOutcome :=
  let ext := extOf originalName
  if ext = ".txt" ∨ ext = ".md" then
    match env.readTextFile with
    | DecodeResult.ok t => ExtractOutcome.text t
    | DecodeResult.err _ => ExtractOutcome.text (parseFailPlaceholder originalName)
  else if ext = ".pdf" then
    match env.readBinary with
    | DecodeResult.err _ => ExtractOutcome.text (parseFailPlaceholder originalName)
    | DecodeResult.ok _ =>
      match env.pdfParse with
      | DecodeResult.ok t => ExtractOutcome.text t
      | DecodeResult.err _ => ExtractOutcome.text (parseFailPlaceholder originalName)
  else if ext = ".doc" ∨ ext = ".docx" then
    match env.readBinary with
    | DecodeResult.err _ => ExtractOutcome.text (parseFailPlaceholder originalName)
    | DecodeResult.ok _ =>
      match env.mammothExtract with
      | DecodeResult.ok t => ExtractOutcome.text t
      | DecodeResult.err _ => ExtractOutcome.text (parseFailPlaceholder originalName)
  else if ext = ".xlsx" ∨ ext = ".xls" then
    match env.xlsxText with
    | DecodeResult.ok t => ExtractOutcome.text t
    | DecodeResult.err _ => ExtractOutcome.text (parseFailPlaceholder originalName)
  else if ext = ".html" ∨ ext = ".htm" then
    match env.readTextFile with
    | DecodeResult.err _ => ExtractOutcome.text (parseFailPlaceholder originalName)
    | DecodeResult.ok _ =>
      match env.htmlText with
      | DecodeResult.ok t => ExtractOutcome.text t
      | DecodeResult.err _ => ExtractOutcome.text (parseFailPlaceholder originalName)
  else if ext = ".epub" then
    match env.epubOutcome with
    | DecodeResult.ok t => ExtractOutcome.text t
    | DecodeResult.err m => ExtractOutcome.raised m
  else if ext = ".png" ∨ ext = ".jpg" ∨ ext = ".jpeg" ∨ ext = ".gif" ∨ ext = ".bmp" ∨
      ext = ".webp" then
    ExtractOutcome.text env.ocrText
  else
    ExtractOutcome.text (unsupportedPlaceholder ext)

/-- An environment in which every decoder succeeds except the EPUB reader,
which emits an `error` event. -/
def epubErrorEnv : FileEnv :=
  ⟨DecodeResult.ok "text", DecodeResult.ok "bin", DecodeResult.ok "pdf text",
   DecodeResult.ok "doc text", DecodeResult.ok "sheet text", DecodeResult.ok "html text",
   DecodeResult.err "Invalid/missing file", "ocr text"⟩

/-- An environment in which reading the file from disk fails. -/
def readFailEnv : FileEnv :=
  ⟨DecodeResult.err "ENOENT", DecodeResult.err "ENOENT", DecodeResult.err "ENOENT",
   DecodeResult.err "ENOENT", DecodeResult.err "ENOENT", DecodeResult.err "ENOENT",
   DecodeResult.err "ENOENT", "ocr text"⟩

/-- C3 (code bug): a corrupt `.epub` file makes `extractTextFromFile` reject —
the `error` event of the EPUB reader escapes the try/catch because the branch
returns the promise without awaiting it — while every other decoder failure is
converted to the bracketed placeholder naming the original file, as the
surrounding try/catch intends. -/
theorem extractTextFromFile_epub_error_escapes :
    extractTextFromFile epubErrorEnv "temp_uploads/1-book.epub" "book.epub" =
      ExtractOutcome.raised "Invalid/missing file" ∧
    extractTextFromFile readFailEnv "temp_uploads/2-a.txt" "a.txt" =
      ExtractOutcome.text "[文件解析失敗: a.txt]" ∧
    extractTextFromFile readFailEnv "temp_uploads/3-a.pdf" "a.pdf" =
      ExtractOutcome.text "[文件解析失敗: a.pdf]" ∧
    extractTextFromFile readFailEnv "temp_uploads/4-a.zip" "a.zip" =
      ExtractOutcome.text "[不支援的文件格式: .zip]" := by
  refine ⟨?_, ?_, ?_, ?_⟩ <;> decide

/-! ## Analysis records (the `analyses` table of §3) -/

/-- A row of the `analyses` table.  The store-assigned identity is a natural
number and the two server-assigned timestamps are modelled as natural clock
values (`CURRENT_TIMESTAMP` readings; larger is later). -/
structure AnalysisRecord where
  id : Nat
  analysis_summary : String
  content_text : String
  created_at : Nat
  updated_at : Nat
deriving DecidableEq, Repr

/-! ## Card Builder (`generateCardFromConcept`, src/server.js 556–664) -/

/-- The fixed `for example`-style markers searched for the example field. -/
def exampleKeywordsList : List (List Char) :=
  ["例如".toList, "比如".toList, "舉例".toList, "案例".toList, "實例".toList,
   "具體".toList, "實際".toList, "包括".toList, "特別是".toList]

/-- The relevant content the Card Builder searches: the whole smart-summary
section match (header included) plus, after a space, the whole core-keywords
section match; when neither section occurs, the summary with the three
statistics sections removed. -/
def relevantContentOf (a : List Char) : List Char :=
  let s := match findSectionFull smartSummaryHeader a with
    | some m => m
    | none => []
  let k := match findSectionFull coreKeywordsHeader a with
    | some m => ' ' :: m
    | none => []
  if (s ++ k).isEmpty then filteredAnalysisText a else s ++ k

/-- Substring containment over char lists: some suffix of `hay` starts with
`needle`. -/
def containsSub (needle : List Char) : List Char → Bool
  | [] => needle.isPrefixOf []
  | h :: t => needle.isPrefixOf (h :: t) || containsSub needle t

/-- The sentences of `rc` (complete, terminator-ended) containing `needle`.
This is what a match of `[^。！？\n]*<needle>[^。！？\n]*[。！？]` is for needle
texts free of regex metacharacters and of the delimiters `。！？\n` — the
domain on which the theorems below operate. -/
def sentencesContaining (needle rc : List Char) : List (List Char) :=
  (sentencePairs rc).filterMap (fun p =>
    if containsSub needle (p.1 ++ [p.2]) then some (p.1 ++ [p.2]) else none)

/-- Source `text.replace(/[##\-\*]/g, '').trim()` (the class is `{#, -, *}`). -/
def cleanCardText (l : List Char) : List Char :=
  trimChars (l.filter (fun c => !(c == '#' || c == '-' || c == '*')))

/-- JavaScript `Array.prototype.join` with a one-character separator, over char lists. -/
def joinWithSepChar (sep : Char) : List (List Char) → List Char
  | [] => []
  | [s] => s
  | s :: rest => s ++ sep :: joinWithSepChar sep rest

/-- Balanced-parenthesis scan with open-parenthesis depth `d`. -/
def parensOk : List Char → Nat → Bool
  | [], 0 => true
  | [], _ + 1 => false
  | c :: r, d =>
    if c = '(' then parensOk r (d + 1)
    else if c = ')' then (match d with | 0 => false | e + 1 => parensOk r e)
    else parensOk r d

/-- Whether `new RegExp` compiles on the pattern built by interpolating the
concept text: an unmatched parenthesis in the interpolated text is a
guaranteed `SyntaxError`, which this check flags. -/
def conceptPatternCompiles (s : String) : Bool := parensOk s.toList 0

/-- A concept text containing none of the JavaScript regex metacharacters: it
is matched literally by the interpolated pattern and always compiles. -/
def regexLiteralSafe (s : String) : Bool :=
  s.toList.all (fun c => !(c == '\\' || c == '^' || c == '$' || c == '.' || c == '|' ||
    c == '?' || c == '*' || c == '+' || c == '(' || c == ')' || c == '[' || c == ']' ||
    c == '\x7b' || c == '\x7d'))

/-- The generic explanation template used when no related sentence is found. -/
def conceptExplanationTemplate (name : String) : String :=
  name ++ "是文檔中的重要概念，根據智能摘要分析，這個概念在整體內容中具有重要意義。"

/-- The generic example template used when no marker sentence is found. -/
def exampleTemplate (name : String) : String :=
  "根據智能摘要內容，" ++ name ++ "在實際應用中可以通過文檔描述的方法和策略來體現其價值。"

/-- The raw concept explanation before the length-10 template check: for a
`smart_summary` concept the first 2 sentences containing the concept text,
joined by a space and cleaned (when none exists the source's context-regex
fallback also requires a sentence containing the text, so it finds nothing
either); for a `keywords` concept the first such sentence, cleaned; empty for
any other source. -/
def conceptExplanationRaw (c : Concept) (rc : List Char) : List Char :=
  if c.source = "smart_summary" then
    match sentencesContaining c.concept.toList rc with
    | [] => []
    | rel => cleanCardText (joinWithSepChar ' ' (rel.take 2))
  else if c.source = "keywords" then
    match sentencesContaining c.concept.toList rc with
    | [] => []
    | m :: _ => cleanCardText m
  else []

/-- First example-marker keyword with a sentence containing it: the loop breaks
at the first hit even if the cleaned sentence is empty. -/
def findExampleMatch : List (List Char) → List Char → Option (List Char)
  | [], _ => none
  | k :: ks, rc =>
    match sentencesContaining k rc with
    | [] => findExampleMatch ks rc
    | m :: _ => some (cleanCardText m)

/-- The application-suggestion lines in push order: three fixed numbered lines,
a fourth depending on the concept source, and a fixed fifth. -/
def applicationSuggestions (c : Concept) : List String :=
  ["1. 深入研讀智能摘要中關於" ++ c.concept ++ "的關鍵描述",
   "2. 理解" ++ c.concept ++ "在文檔整體脈絡中的重要作用",
   "3. 將" ++ c.concept ++ "的核心要點應用到相關的實際場景中"] ++
  (if c.source = "keywords" then ["4. 關注此關鍵詞在不同段落中的使用context和含義"]
   else if c.source = "smart_summary" then
     ["4. 結合摘要內容，深化對" ++ c.concept ++ "的理解和應用"]
   else []) ++
  ["5. 定期回顧並實踐，建立與其他概念的關聯"]

/-- JavaScript `Array.prototype.join('\n')` over strings. -/
def joinLinesStr : List String → String
  | [] => ""
  | [s] => s
  | s :: rest => s ++ "\n" ++ joinLinesStr rest

/-- The function `generateCardFromConcept(concept, analysisId)`.  `analysisLookup` is the
result of the re-fetch by id: `none` models an absent id, a missing row or a
caught lookup error, all of which degrade to the empty summary string.  The
`error` case models the uncaught `SyntaxError` thrown by `new RegExp` when the
concept text (interpolated into the search pattern in the `smart_summary` and
`keywords` branches) contains an unmatched parenthesis. -/
def generateCardFromConcept (concept : Concept) (analysisLookup : Option AnalysisRecord) :
    Except String Card :=
  if (concept.source = "smart_summary" ∨ concept.source = "keywords") ∧
      ¬ conceptPatternCompiles concept.concept = true then
    Except.error "SyntaxError: Invalid regular expression"
  else
    let analysisText := match analysisLookup with
      | some a => a.analysis_summary
      | none => ""
    let rc := relevantContentOf analysisText.toList
    Except.ok
      ⟨concept.concept,
       if (conceptExplanationRaw concept rc).length < 10 then
         conceptExplanationTemplate concept.concept
       else String.mk (conceptExplanationRaw concept rc),
       (match findExampleMatch exampleKeywordsList rc with
        | some e => if e.isEmpty then exampleTemplate concept.concept else String.mk e
        | none => exampleTemplate concept.concept),
       joinLinesStr (applicationSuggestions concept)⟩

theorem string_ne_empty_of_length_pos {s : String} (h : 0 < s.length) : s ≠ "" := by
  intro he
  rw [he] at h
  exact absurd h (by decide)

theorem stringMk_ne_empty {l : List Char} (h : l ≠ []) : String.mk l ≠ "" := by
  intro he
  apply h
  have hd : (String.mk l).data = l := rfl
  rw [he] at hd
  exact hd.symm

theorem explanationField_ne_empty (name : String) (raw : List Char) :
    (if raw.length < 10 then conceptExplanationTemplate name else String.mk raw) ≠ "" := by
  split
  · apply string_ne_empty_of_length_pos
    rw [conceptExplanationTemplate, String.length_append]
    have : 0 <
        ("是文檔中的重要概念，根據智能摘要分析，這個概念在整體內容中具有重要意義。" : String).length := by
      decide
    omega
  · rename_i hlen
    apply stringMk_ne_empty
    intro hnil
    rw [hnil] at hlen
    exact hlen (by decide)

theorem exampleField_ne_empty (name : String) (fm : Option (List Char)) :
    (match fm with
      | some e => if e.isEmpty = true then exampleTemplate name else String.mk e
      | none => exampleTemplate name) ≠ "" := by
  have htmpl : exampleTemplate name ≠ "" := by
    apply string_ne_empty_of_length_pos
    rw [exampleTemplate, String.length_append, String.length_append]
    have : 0 < ("根據智能摘要內容，" : String).length := by decide
    omega
  match fm with
  | none => exact htmpl
  | some e =>
    show (if e.isEmpty = true then exampleTemplate name else String.mk e) ≠ ""
    split
    · exact htmpl
    · rename_i hne2
      apply stringMk_ne_empty
      intro hnil
      rw [hnil] at hne2
      exact hne2 rfl

theorem applicationField_ne_empty (c : Concept) :
    joinLinesStr (applicationSuggestions c) ≠ "" := by
  apply string_ne_empty_of_length_pos
  have hform : applicationSuggestions c =
      ("1. 深入研讀智能摘要中關於" ++ c.concept ++ "的關鍵描述") ::
        (("2. 理解" ++ c.concept ++ "在文檔整體脈絡中的重要作用") ::
          (("3. 將" ++ c.concept ++ "的核心要點應用到相關的實際場景中") ::
            ((if c.source = "keywords" then ["4. 關注此關鍵詞在不同段落中的使用context和含義"]
              else if c.source = "smart_summary" then
                ["4. 結合摘要內容，深化對" ++ c.concept ++ "的理解和應用"]
              else []) ++ ["5. 定期回顧並實踐，建立與其他概念的關聯"]))) := rfl
  rw [hform]
  rw [show ∀ a b l, joinLinesStr (a :: b :: l) = a ++ "\n" ++ joinLinesStr (b :: l) from
    fun a b l => rfl]
  simp only [String.length_append]
  have : 0 < ("1. 深入研讀智能摘要中關於" : String).length := by decide
  omega

theorem parensOk_of_no_paren {l : List Char} {d : Nat}
    (h : ∀ c ∈ l, c ≠ '(' ∧ c ≠ ')') : parensOk l d = parensOk [] d := by
  induction l with
  | nil => rfl
  | cons c r ih =>
    have hc := h c (by simp)
    have hr : ∀ x ∈ r, x ≠ '(' ∧ x ≠ ')' := fun x hx => h x (by simp [hx])
    simp only [parensOk, if_neg hc.1, if_neg hc.2]
    exact ih hr

theorem regexLiteralSafe_compiles {s : String} (h : regexLiteralSafe s = true) :
    conceptPatternCompiles s = true := by
  have hnp : ∀ c ∈ s.toList, c ≠ '(' ∧ c ≠ ')' := by
    intro c hc
    have := (List.all_eq_true.mp h) c hc
    constructor <;> (intro he; subst he; simp at this)
  unfold conceptPatternCompiles
  rw [parensOk_of_no_paren hnp]
  rfl

/-- C4 counterexample: a concept record with the empty concept text yields a
card whose `title` is the empty string, and a concept text with an unmatched
parenthesis (interpolated into the search regex) makes the function throw
instead of returning a card. -/
theorem generateCard_empty_or_invalid_concept :
    (generateCardFromConcept ⟨"", "high", "fallback"⟩ none).map Card.title = Except.ok "" ∧
    generateCardFromConcept ⟨"(", "high", "smart_summary"⟩ none =
      Except.error "SyntaxError: Invalid regular expression" := by
  exact ⟨rfl, rfl⟩

/-- C4 (amended): for every concept whose text is non-empty and free of regex
metacharacters, and every lookup outcome (including the absent/failed lookup,
which degrades to the empty summary), the function returns a card whose four
fields are all non-empty strings, without failing. -/
theorem generateCard_fields_nonempty_of_safe (c : Concept)
    (analysisLookup : Option AnalysisRecord)
    (hne : c.concept ≠ "") (hsafe : regexLiteralSafe c.concept = true) :
    ∃ card, generateCardFromConcept c analysisLookup = Except.ok card ∧
      card.title ≠ "" ∧ card.concept ≠ "" ∧ card.«example» ≠ "" ∧
      card.application ≠ "" := by
  have hcomp := regexLiteralSafe_compiles hsafe
  simp only [generateCardFromConcept]
  rw [if_neg (by
    intro hcon
    exact hcon.2 hcomp)]
  exact ⟨_, rfl, hne, explanationField_ne_empty _ _, exampleField_ne_empty _ _,
    applicationField_ne_empty _⟩

/-- C4 witness: a well-formed smart-summary concept with an absent analysis id
gets a complete card. -/
theorem generateCard_fields_nonempty_instance :
    ∃ card, generateCardFromConcept ⟨"學習方法", "high", "smart_summary"⟩ none =
        Except.ok card ∧
      card.title ≠ "" ∧ card.concept ≠ "" ∧ card.«example» ≠ "" ∧
      card.application ≠ "" :=
  generateCard_fields_nonempty_of_safe ⟨"學習方法", "high", "smart_summary"⟩ none
    (by decide) (by decide)

/-! ## Heuristic Analyzer: local fallback summary (`generateLocalSummary`,
src/server.js 363–371) and input truncation (`performAIAnalysis`, 288–294) -/

/-- The characters of the split class `[.!?。！？]`. -/
def splitTermChar (c : Char) : Bool :=
  c == '.' || c == '!' || c == '?' || c == '。' || c == '！' || c == '？'

/-- Source `text.split(/[.!?。！？]/)`: the segments between separator characters,
empty segments included (a trailing separator yields a final empty segment). -/
def splitOnTerms : List Char → List (List Char)
  | [] => [[]]
  | c :: rest =>
    if splitTermChar c then [] :: splitOnTerms rest
    else
      match splitOnTerms rest with
      | [] => [[c]]
      | s :: ss => (c :: s) :: ss

/-- Insert into a descending-by-key list, after any earlier element of equal
key (so that the fold below is a stable descending sort). -/
def insertDescBy {α : Type} (key : α → Nat) (a : α) : List α → List α
  | [] => [a]
  | b :: l => if key b ≤ key a then a :: b :: l else b :: insertDescBy key a l

/-- Stable descending sort by a numeric key, as JavaScript's stable
`Array.prototype.sort` with comparator `(a, b) => key(b) - key(a)`. -/
def sortDescBy {α : Type} (key : α → Nat) (l : List α) : List α :=
  l.foldr (insertDescBy key) []

/-- The fixed sentence returned when the summary would otherwise be empty. -/
def localFallbackSentence : String := "文件包含重要信息，建議詳細閱讀原文。"

/-- The function `generateLocalSummary(text)`: split into sentences, keep those whose
trimmed length is strictly greater than 10, sort descending by (untrimmed)
length, keep 3, join with `。`; the fixed sentence when the join is empty
(the `topSentences || …` falsy check). -/
def generateLocalSummary (text : String) : String :=
  let sentences := (splitOnTerms text.toList).filter (fun s => 10 < (trimChars s).length)
  let joined := joinWithSepChar '。' ((sortDescBy (fun s => s.length) sentences).take 3)
  if joined.isEmpty then localFallbackSentence else String.mk joined

/-- The text handed to the external summarization call: unchanged when at most
2000 characters, otherwise the first 2000 characters with `"..."` appended. -/
def truncatedInput (combinedText : String) : String :=
  if 2000 < combinedText.length then String.mk (combinedText.toList.take 2000) ++ "..."
  else combinedText

/-- The local fallback summary as claim C5 words it: keep the sentences of at
least 10 characters (drop those under 10), take the 3 longest by character
length, join. -/
def localSummaryClaimed (text : String) : String :=
  String.mk (joinWithSepChar '。'
    ((sortDescBy (fun s => s.length)
      ((splitOnTerms text.toList).filter (fun s => 10 ≤ s.length))).take 3))

/-- The local fallback summary as the amended claim words it: keep the
sentences whose trimmed length exceeds 10 characters, take the 3 longest by
untrimmed length (stable), join with `。`, and produce the fixed sentence when
no sentence qualifies. -/
def localSummaryAmended (text : String) : String :=
  if (splitOnTerms text.toList).filter (fun s => 10 < (trimChars s).length) = [] then
    localFallbackSentence
  else
    String.mk (joinWithSepChar '。'
      ((sortDescBy (fun s => s.length)
        ((splitOnTerms text.toList).filter (fun s => 10 < (trimChars s).length))).take 3))

theorem mem_insertDescBy {α : Type} (key : α → Nat) (a x : α) (l : List α) :
    x ∈ insertDescBy key a l ↔ x = a ∨ x ∈ l := by
  induction l with
  | nil => simp [insertDescBy]
  | cons b t ih =>
    simp only [insertDescBy]
    split
    · simp
    · rw [List.mem_cons, ih, List.mem_cons]
      tauto

theorem mem_sortDescBy {α : Type} (key : α → Nat) (l : List α) (x : α) :
    x ∈ sortDescBy key l ↔ x ∈ l := by
  induction l with
  | nil => simp [sortDescBy]
  | cons a t ih =>
    have hstep : sortDescBy key (a :: t) = insertDescBy key a (sortDescBy key t) := rfl
    rw [hstep, mem_insertDescBy, ih, List.mem_cons]

theorem length_insertDescBy {α : Type} (key : α → Nat) (a : α) (l : List α) :
    (insertDescBy key a l).length = l.length + 1 := by
  induction l with
  | nil => rfl
  | cons b t ih =>
    simp only [insertDescBy]
    split
    · rfl
    · simp only [List.length_cons, ih]

theorem length_sortDescBy {α : Type} (key : α → Nat) (l : List α) :
    (sortDescBy key l).length = l.length := by
  induction l with
  | nil => rfl
  | cons a t ih =>
    have hstep : sortDescBy key (a :: t) = insertDescBy key a (sortDescBy key t) := rfl
    rw [hstep, length_insertDescBy, ih, List.length_cons]

theorem trimChars_length_le (l : List Char) : (trimChars l).length ≤ l.length := by
  unfold trimChars
  have h1 := length_dropWhile_le jsWs l
  have h2 := length_dropWhile_le jsWs (l.dropWhile jsWs).reverse
  simp only [List.length_reverse] at h2 ⊢
  omega

/-- C5 counterexample: on the text `a234567890。` — one sentence of exactly 10
characters — the code drops the sentence (its filter keeps only trimmed length
strictly greater than 10) and falls back to the fixed sentence, while the
claimed computation (filter out sentences under 10 characters) keeps it; and
the truncated input of a 2001-character text has 2003 characters (the first
2000 plus `"..."`), not at most 2000. -/
theorem generateLocalSummary_threshold_mismatch :
    generateLocalSummary "a234567890。" ≠ localSummaryClaimed "a234567890。" ∧
    generateLocalSummary "a234567890。" = localFallbackSentence ∧
    localSummaryClaimed "a234567890。" = "a234567890" ∧
    ¬ (truncatedInput (String.mk (List.replicate 2001 'a'))).length ≤ 2000 := by
  refine ⟨by decide, by decide, by decide, ?_⟩
  intro hle
  have h1 : (String.mk (List.replicate 2001 'a')).length = 2001 := by
    show (List.replicate 2001 'a').length = 2001
    rw [List.length_replicate]
  have h2 : truncatedInput (String.mk (List.replicate 2001 'a')) =
      String.mk ((String.mk (List.replicate 2001 'a')).toList.take 2000) ++ "..." := by
    simp only [truncatedInput]
    rw [if_pos (by rw [h1]; omega)]
  have h3 : (String.mk ((String.mk (List.replicate 2001 'a')).toList.take 2000)).length =
      2000 := by
    show ((List.replicate 2001 'a').take 2000).length = 2000
    rw [List.take_replicate, List.length_replicate]
    decide
  rw [h2, String.length_append, h3] at hle
  have h4 : ("..." : String).length = 3 := by decide
  rw [h4] at hle
  omega

/-- C5 (amended): the local fallback summary equals the join (with `。`) of the
3 longest sentences among those whose trimmed length strictly exceeds 10
characters, with a fixed sentence when none qualifies; and the text handed to
the external summarization call is unchanged at up to 2000 characters and is
otherwise cut to its first 2000 characters with `...` appended. -/
theorem generateLocalSummary_amended_spec :
    (∀ text : String, generateLocalSummary text = localSummaryAmended text) ∧
    (∀ combinedText : String, combinedText.length ≤ 2000 →
      truncatedInput combinedText = combinedText) ∧
    (∀ combinedText : String, 2000 < combinedText.length →
      truncatedInput combinedText =
        String.mk (combinedText.toList.take 2000) ++ "...") := by
  refine ⟨?_, ?_, ?_⟩
  · intro text
    simp only [generateLocalSummary, localSummaryAmended]
    by_cases hq : (splitOnTerms text.toList).filter (fun s => 10 < (trimChars s).length) = []
    · rw [hq]
      simp [sortDescBy, joinWithSepChar]
    · rw [if_neg hq]
      obtain ⟨x, rest, hsorted⟩ : ∃ x rest,
          sortDescBy (fun s => s.length)
            ((splitOnTerms text.toList).filter (fun s => 10 < (trimChars s).length)) =
            x :: rest := by
        cases hs : sortDescBy (fun s => s.length)
            ((splitOnTerms text.toList).filter (fun s => 10 < (trimChars s).length)) with
        | nil =>
          exfalso
          have := length_sortDescBy (fun s : List Char => s.length)
            ((splitOnTerms text.toList).filter (fun s => 10 < (trimChars s).length))
          rw [hs] at this
          exact hq (List.length_eq_zero.mp this.symm)
        | cons x rest => exact ⟨x, rest, rfl⟩
      have hxmem : x ∈ (splitOnTerms text.toList).filter
          (fun s => 10 < (trimChars s).length) := by
        rw [← mem_sortDescBy (fun s : List Char => s.length)]
        rw [hsorted]
        simp
      have hxlen : 10 < (trimChars x).length := by
        have := (List.mem_filter.mp hxmem).2
        simpa using this
      have hxne : x ≠ [] := by
        intro he
        rw [he] at hxlen
        have := trimChars_length_le ([] : List Char)
        simp at this
        rw [this] at hxlen
        exact absurd hxlen (by decide)
      have hjoin : joinWithSepChar '。' ((x :: rest).take 3) ≠ [] := by
        have htake : (x :: rest).take 3 = x :: rest.take 2 := rfl
        rw [htake]
        cases rest.take 2 with
        | nil =>
          simp only [joinWithSepChar]
          exact hxne
        | cons y ys =>
          simp only [joinWithSepChar]
          intro hcontra
          rcases List.append_eq_nil.mp hcontra with ⟨_, h2⟩
          exact absurd h2 (by simp)
      rw [hsorted]
      rw [if_neg (by
        intro hemp
        exact hjoin (List.isEmpty_iff.mp hemp))]
  · intro t hle
    simp only [truncatedInput]
    rw [if_neg (by omega)]
  · intro t hgt
    simp only [truncatedInput]
    rw [if_pos hgt]

/-- C5 witness for the amended statement. -/
theorem generateLocalSummary_amended_instance :
    truncatedInput "short" = "short" ∧
    truncatedInput (String.mk (List.replicate 2001 'a')) =
      String.mk ((String.mk (List.replicate 2001 'a')).toList.take 2000) ++ "..." ∧
    generateLocalSummary "" = localSummaryAmended "" :=
  ⟨generateLocalSummary_amended_spec.2.1 "short" (by decide),
   generateLocalSummary_amended_spec.2.2 (String.mk (List.replicate 2001 'a')) (by
     show 2000 < (List.replicate 2001 'a').length
     rw [List.length_replicate]
     decide),
   generateLocalSummary_amended_spec.1 ""⟩

/-! ## Analysis Store endpoints (src/server.js 1857–1935)

The SQL engine is an external collaborator; its contractual semantics on the
statements the handlers issue are embedded directly: `SELECT … WHERE col LIKE
?` filters by the standard LIKE match (`%` any sequence, `_` one character,
other characters compared case-insensitively — ASCII folding, the default
SQLite behaviour; PostgreSQL `ILIKE` agrees on ASCII), `ORDER BY created_at
DESC` sorts descending by `created_at`, `UPDATE … WHERE id = ?` rewrites the
matching rows and reports the match count as `changes`, and `SELECT … WHERE
id = ?` with `get` returns the first matching row. -/

/-- SQL LIKE over char lists: `%` matches any (possibly empty) sequence, `_`
matches exactly one character, any other pattern character matches one text
character up to ASCII case folding (`Char.toLower` lowers exactly `A`–`Z`,
matching SQLite's LIKE). -/
def likeMatch : List Char → List Char → Bool
  | [], s => s.isEmpty
  | c :: p, s =>
    if c = '%' then s.tails.any (fun t => likeMatch p t)
    else
      match s with
      | [] => false
      | d :: t =>
        if c = '_' then likeMatch p t
        else (c.toLower == d.toLower) && likeMatch p t

/-- The pattern the search handler builds: `'%' + keyword + '%'`. -/
def likePattern (keyword : String) : List Char := '%' :: (keyword.toList ++ ['%'])

/-- A keyword free of the LIKE wildcards `%` and `_`. -/
def wildcardFree (keyword : String) : Bool :=
  keyword.toList.all (fun c => !(c == '%' || c == '_'))

/-- The claim's notion: the keyword is a substring of `s` up to ASCII case
folding. -/
def ciSubstring (keyword s : String) : Bool :=
  containsSub (keyword.toList.map Char.toLower) (s.toList.map Char.toLower)

/-- The WHERE clause of the search handler on one row:
`analysis_summary LIKE '%kw%' OR content_text LIKE '%kw%'`. -/
def likeRow (keyword : String) (r : AnalysisRecord) : Bool :=
  likeMatch (likePattern keyword) r.analysis_summary.toList ||
  likeMatch (likePattern keyword) r.content_text.toList

/-- Endpoint `GET /analyses`: all rows, newest first. -/
def analysesList (db : List AnalysisRecord) : List AnalysisRecord :=
  sortDescBy (fun r => r.created_at) db

/-- Endpoint `GET /analyses/search?keyword=`: rows matching the LIKE clause, newest
first (an absent keyword defaults to the empty string). -/
def analysesSearch (db : List AnalysisRecord) (keyword : String) : List AnalysisRecord :=
  sortDescBy (fun r => r.created_at) (db.filter (likeRow keyword))

/-- Query `SELECT * FROM analyses WHERE id = ?` via `dbManager.get`: the first
matching row. -/
def getAnalysisRecord (db : List AnalysisRecord) (id : Nat) : Option AnalysisRecord :=
  db.find? (fun r => r.id == id)

/-- Endpoint `PUT /analyses/:id`: `UPDATE analyses SET analysis_summary = ?,
content_text = ?, updated_at = CURRENT_TIMESTAMP WHERE id = ?`.  `now` is the
engine's `CURRENT_TIMESTAMP` reading at the update.  Returns the new table and
the `changes` count of the response. -/
def putAnalyses (db : List AnalysisRecord) (id : Nat)
    (analysis_summary content_text : String) (now : Nat) : List AnalysisRecord × Nat :=
  (db.map (fun r =>
    if r.id == id then ⟨r.id, analysis_summary, content_text, r.created_at, now⟩ else r),
   (db.filter (fun r => r.id == id)).length)

theorem tails_any_likeNil (s : List Char) : s.tails.any (fun t => likeMatch [] t) = true := by
  induction s with
  | nil => rfl
  | cons a t ih =>
    rw [List.tails_cons, List.any_cons, ih]
    simp

theorem likeMatch_percent (p : List Char) (s : List Char) :
    likeMatch ('%' :: p) s = s.tails.any (fun t => likeMatch p t) := by
  simp [likeMatch]

theorem likeMatch_single_percent (s : List Char) : likeMatch ['%'] s = true := by
  rw [show (['%'] : List Char) = '%' :: [] from rfl, likeMatch_percent]
  exact tails_any_likeNil s

theorem likeMatch_double_percent (s : List Char) : likeMatch ['%', '%'] s = true := by
  rw [show (['%', '%'] : List Char) = '%' :: ['%'] from rfl, likeMatch_percent]
  cases s with
  | nil => rfl
  | cons a t =>
    rw [List.tails_cons, List.any_cons, likeMatch_single_percent]
    simp

theorem likeMatch_append_percent {kw : List Char} (hkw : ∀ c ∈ kw, c ≠ '%' ∧ c ≠ '_') :
    ∀ s : List Char, likeMatch (kw ++ ['%']) s =
      (kw.map Char.toLower).isPrefixOf (s.map Char.toLower) := by
  induction kw with
  | nil =>
    intro s
    rw [List.nil_append, likeMatch_single_percent, List.map_nil]
    cases hs : List.map Char.toLower s <;> rfl
  | cons c kw ih =>
    intro s
    have hc := hkw c (by simp)
    have hkw2 : ∀ x ∈ kw, x ≠ '%' ∧ x ≠ '_' := fun x hx => hkw x (by simp [hx])
    cases s with
    | nil =>
      rw [List.cons_append]
      show (if c = '%' then _ else false) = _
      rw [if_neg hc.1]
      rfl
    | cons d t =>
      rw [List.cons_append]
      show (if c = '%' then _ else if c = '_' then likeMatch (kw ++ ['%']) t
        else (c.toLower == d.toLower) && likeMatch (kw ++ ['%']) t) = _
      rw [if_neg hc.1, if_neg hc.2, ih hkw2 t]
      rfl

theorem tails_any_prefix_map (n : List Char) (s : List Char) :
    s.tails.any (fun t => n.isPrefixOf (t.map Char.toLower)) =
      containsSub n (s.map Char.toLower) := by
  induction s with
  | nil =>
    show (n.isPrefixOf (List.map Char.toLower []) || List.any [] _) = containsSub n []
    simp [containsSub]
  | cons a t ih =>
    rw [List.tails_cons, List.any_cons]
    simp only [containsSub, List.map_cons]
    rw [ih]

theorem likeMatch_pattern_ciSubstring {keyword : String} (h : wildcardFree keyword = true)
    (s : String) : likeMatch (likePattern keyword) s.toList = ciSubstring keyword s := by
  have hkw : ∀ c ∈ keyword.toList, c ≠ '%' ∧ c ≠ '_' := by
    intro c hc
    have := (List.all_eq_true.mp h) c hc
    constructor <;> (intro he; subst he; simp at this)
  rw [likePattern, likeMatch_percent]
  have hcong : ∀ t, likeMatch (keyword.toList ++ ['%']) t =
      (keyword.toList.map Char.toLower).isPrefixOf (t.map Char.toLower) :=
    likeMatch_append_percent hkw
  simp only [hcong]
  exact tails_any_prefix_map (keyword.toList.map Char.toLower) s.toList

/-- C6 counterexample: with the single stored record whose summary is `abc`
and content `zzz`, the search for the keyword `a_c` returns the record — the
`_` acts as a LIKE wildcard — although `a_c` is not a case-insensitive
substring of either field. -/
theorem analysesSearch_wildcard_mismatch :
    analysesSearch [⟨1, "abc", "zzz", 0, 0⟩] "a_c" = [⟨1, "abc", "zzz", 0, 0⟩] ∧
    ciSubstring "a_c" "abc" = false ∧ ciSubstring "a_c" "zzz" = false := by
  refine ⟨?_, ?_, ?_⟩ <;> decide

/-- C6 (amended): for every keyword free of the LIKE wildcards `%` and `_`,
the search returns exactly the records for which the keyword is an
ASCII-case-insensitive substring of the record's `analysis_summary` or of its
`content_text`. -/
theorem analysesSearch_ci_substring_of_wildcardFree (db : List AnalysisRecord)
    (keyword : String) (h : wildcardFree keyword = true) (r : AnalysisRecord) :
    r ∈ analysesSearch db keyword ↔
      r ∈ db ∧ (ciSubstring keyword r.analysis_summary = true ∨
        ciSubstring keyword r.content_text = true) := by
  rw [analysesSearch, mem_sortDescBy, List.mem_filter]
  have h1 := likeMatch_pattern_ciSubstring h r.analysis_summary
  have h2 := likeMatch_pattern_ciSubstring h r.content_text
  constructor
  · rintro ⟨hm, hp⟩
    refine ⟨hm, ?_⟩
    simp only [likeRow, Bool.or_eq_true, h1, h2] at hp
    exact hp
  · rintro ⟨hm, hp⟩
    refine ⟨hm, ?_⟩
    simp only [likeRow, Bool.or_eq_true, h1, h2]
    exact hp

/-- C6 witness: an ASCII-case-insensitive hit is returned. -/
theorem analysesSearch_ci_substring_instance :
    (⟨1, "xAbCy", "zzz", 0, 0⟩ : AnalysisRecord) ∈
      analysesSearch [⟨1, "xAbCy", "zzz", 0, 0⟩] "bc" :=
  (analysesSearch_ci_substring_of_wildcardFree [⟨1, "xAbCy", "zzz", 0, 0⟩] "bc" (by decide)
    ⟨1, "xAbCy", "zzz", 0, 0⟩).mpr ⟨by decide, Or.inl (by decide)⟩

/-- C7: the search with an empty keyword returns the same records as the
listing endpoint (the pattern `%%` matches every row). -/
theorem analysesSearch_empty_keyword_eq_list (db : List AnalysisRecord) :
    analysesSearch db "" = analysesList db := by
  rw [analysesSearch, analysesList]
  congr 1
  apply List.filter_eq_self.mpr
  intro r _
  simp only [likeRow, likePattern, Bool.or_eq_true]
  left
  exact likeMatch_double_percent _

theorem getAnalysisRecord_put (db : List AnalysisRecord) (id : Nat)
    (analysis_summary content_text : String) (now : Nat) :
    getAnalysisRecord (putAnalyses db id analysis_summary content_text now).1 id =
      (getAnalysisRecord db id).map
        (fun r => ⟨r.id, analysis_summary, content_text, r.created_at, now⟩) := by
  induction db with
  | nil => rfl
  | cons a t ih =>
    simp only [putAnalyses, getAnalysisRecord, List.map_cons] at ih ⊢
    by_cases ha : (a.id == id) = true
    · rw [if_pos ha]
      rw [List.find?_cons, List.find?_cons]
      dsimp only
      rw [ha]
      rfl
    · rw [if_neg ha]
      rw [List.find?_cons, List.find?_cons]
      rw [show (a.id == id) = false from by simpa using ha]
      exact ih

/-- C8 counterexample: a PUT whose `CURRENT_TIMESTAMP` reading coincides with
the record's `created_at` (an edit within the creation clock tick) updates the
fields, yet the re-read record has `updated_at` equal to `created_at`, not
strictly later — so equality of the two timestamps does not certify a
never-edited record. -/
theorem putThenGet_same_tick_equal_timestamps :
    getAnalysisRecord (putAnalyses [⟨1, "old", "old text", 5, 5⟩] 1 "new" "new text" 5).1 1 =
      some ⟨1, "new", "new text", 5, 5⟩ ∧
    ¬ ((⟨1, "new", "new text", 5, 5⟩ : AnalysisRecord).created_at <
        (⟨1, "new", "new text", 5, 5⟩ : AnalysisRecord).updated_at) :=
  ⟨rfl, by decide⟩

/-- C8 (amended): a successful PUT (the id exists, so `changes ≥ 1`) followed
by a GET returns the updated `analysis_summary` and `content_text` with
`created_at` preserved and `updated_at` set to the update's timestamp, and
`updated_at` is strictly later than `created_at` whenever the update's
timestamp is strictly later than the record's creation timestamp. -/
theorem putThenGet_updated_fields_and_strict_time (db : List AnalysisRecord) (id : Nat)
    (analysis_summary content_text : String) (now : Nat) (r : AnalysisRecord)
    (hfind : getAnalysisRecord db id = some r) (hlater : r.created_at < now) :
    1 ≤ (putAnalyses db id analysis_summary content_text now).2 ∧
    getAnalysisRecord (putAnalyses db id analysis_summary content_text now).1 id =
      some ⟨r.id, analysis_summary, content_text, r.created_at, now⟩ ∧
    (⟨r.id, analysis_summary, content_text, r.created_at, now⟩ : AnalysisRecord).created_at <
      (⟨r.id, analysis_summary, content_text, r.created_at, now⟩ :
        AnalysisRecord).updated_at := by
  refine ⟨?_, ?_, hlater⟩
  · have hmem := List.mem_of_find?_eq_some hfind
    have hp := List.find?_some hfind
    have hin : r ∈ db.filter (fun x => x.id == id) := List.mem_filter.mpr ⟨hmem, hp⟩
    have hne := List.ne_nil_of_mem hin
    have hpos := List.length_pos.mpr hne
    simp only [putAnalyses]
    omega
  · rw [getAnalysisRecord_put, hfind]
    rfl

/-- C8 witness: a later-tick update round-trips with a strictly larger
`updated_at`. -/
theorem putThenGet_updated_fields_instance :
    1 ≤ (putAnalyses [⟨1, "old", "old text", 5, 5⟩] 1 "new" "new text" 9).2 ∧
    getAnalysisRecord (putAnalyses [⟨1, "old", "old text", 5, 5⟩] 1 "new" "new text" 9).1 1 =
      some ⟨1, "new", "new text", 5, 9⟩ ∧
    (⟨1, "new", "new text", 5, 9⟩ : AnalysisRecord).created_at <
      (⟨1, "new", "new text", 5, 9⟩ : AnalysisRecord).updated_at :=
  putThenGet_updated_fields_and_strict_time [⟨1, "old", "old text", 5, 5⟩] 1 "new" "new text" 9
    ⟨1, "old", "old text", 5, 5⟩ rfl (by decide)

end AIFA
